import Mathlib

/-!
Shallow embedding of the Quantum Adventure game engine
(source: `src/Quantum Game/main.py`).

The probabilistic backend is modelled as an explicit stream of raw draws
`draws : Nat → Nat`; a measurement of `b` qubits yields the raw draw reduced
modulo `2 ^ b` (a `b`-bit value). Loops with no a-priori bound (the rejection
loop of `quantum_random_int`, the spawn search of `random_empty_cell`) are
given fuel and return `Option`, so that a result `some v` corresponds to a
terminating run of the Python loop.
-/

namespace QuantumAdventure

/-- Fuelled core of `bit_length`: one recursion step halves the argument,
and the fuel bounds the recursion depth structurally. -/
def bit_length_fuel : Nat → Nat → Nat
  | 0, _ => 0
  | fuel + 1, n => if n = 0 then 0 else bit_length_fuel fuel (n / 2) + 1

/-- Python's `int.bit_length()` on naturals: `0` has bit length `0`, and
otherwise the bit length obeys `bit_length n = bit_length (n / 2) + 1`.
`n` itself is sufficient fuel since `n / 2 < n` for `n > 0`. -/
def bit_length (n : Nat) : Nat := bit_length_fuel n n

/-- Rejection-sampling loop of `quantum_random_int`, threading the cursor `i`
into the draw stream. Each iteration measures `bit_length max_value` qubits
(the Python `max_value.bit_length()`), giving the raw draw modulo
`2 ^ bit_length max_value`, and accepts it iff it is `< max_value`. Returns
the accepted value together with the cursor after it. -/
def qri_from (max_value : Nat) (draws : Nat → Nat) : Nat → Nat → Option (Nat × Nat)
  | _, 0 => none
  | i, fuel + 1 =>
    let value := draws i % 2 ^ bit_length max_value
    if value < max_value then some (value, i + 1)
    else qri_from max_value draws (i + 1) fuel

/-- Embedding of `quantum_random_int(max_value)`: the value produced by the
rejection loop started at the head of the draw stream. -/
def quantum_random_int (max_value : Nat) (draws : Nat → Nat) (fuel : Nat) :
    Option Nat :=
  (qri_from max_value draws 0 fuel).map Prod.fst

/-- Embedding of `quantum_random_int_batch(max_value, batch_size)`. The
`batch_size` shots give the list `outcomes` of raw measurement results
(`counts` expanded to a multiset); each is an `n_qubits`-bit value, the
in-range ones are kept (`if value < max_value`) and the survivors are
truncated by `values[:batch_size]`. -/
def quantum_random_int_batch (max_value : Nat) (batch_size : Nat)
    (outcomes : List Nat) : List Nat :=
  (((outcomes.map (fun d => d % 2 ^ bit_length max_value)).filter
      (fun v => decide (v < max_value))).take batch_size)

/-- One maze row of `quantum_maze_visibility`: the row draw is measured on
`size` qubits, the key is reversed (`bits[::-1]`) so that cell `x` receives
qubit `x`, i.e. bit `x` of the measured integer. -/
def mazeRow (size : Nat) (draw : Nat) : List Bool :=
  (List.range size).map (fun x => draw.testBit x)

/-- In-place cell assignment `grid[y][x] = b` on a list-of-lists grid. -/
def setCell (grid : List (List Bool)) (x y : Nat) (b : Bool) :
    List (List Bool) :=
  grid.set y ((grid.getD y []).set x b)

/-- Cell read `grid[y][x]` (out-of-range reads default to `false`; all uses
below are in range). -/
def cellAt (grid : List (List Bool)) (x y : Nat) : Bool :=
  (grid.getD y []).getD x false

/-- Embedding of `quantum_maze_visibility(size, start, goal)`: one row draw
per `y`, then the start and goal cells are forced open. `rowDraws y` is the
raw measurement for row `y`. -/
def quantum_maze_visibility (size : Nat) (start goal : Nat × Nat)
    (rowDraws : Nat → Nat) : List (List Bool) :=
  let grid := (List.range size).map (fun y => mazeRow size (rowDraws y))
  let grid1 := setCell grid start.1 start.2 true
  setCell grid1 goal.1 goal.2 true

/-- Embedding of `entangled_move(pos1, pos2, move, grid_size)`: the move is
added to `pos1`, subtracted from `pos2`, and every coordinate is clamped by
`max(0, min(grid_size - 1, ·))`. -/
def entangled_move (pos1 pos2 : Int × Int) (move : Int × Int)
    (grid_size : Int) : (Int × Int) × (Int × Int) :=
  ((max 0 (min (grid_size - 1) (pos1.1 + move.1)),
    max 0 (min (grid_size - 1) (pos1.2 + move.2))),
   (max 0 (min (grid_size - 1) (pos2.1 - move.1)),
    max 0 (min (grid_size - 1) (pos2.2 - move.2))))

/-- Mutable state of `QuantumAdventureGame` that the game logic reads and
writes (display, clock and the `running` flag are external collaborators).
Positions are integer pairs `(x, y)`. -/
structure GameState where
  grid_size : Nat
  goal : Int × Int
  maze : List (List Bool)
  player1_pos : Int × Int
  player2_pos : Int × Int
  enemies : List (Int × Int)
  enemy_move_delay : Nat
  enemy_move_counter : Nat
  deriving Repr, DecidableEq

/-- Openness of an integer position: `maze[y][x]` after the (in-bounds)
conversion of the coordinates to indices. -/
def openPos (maze : List (List Bool)) (p : Int × Int) : Bool :=
  cellAt maze p.1.toNat p.2.toNat

/-- Embedding of `QuantumAdventureGame.is_valid(pos)`:
`0 <= x < grid_size and 0 <= y < grid_size and self.maze[y][x]`. -/
def is_valid (g : GameState) (pos : Int × Int) : Bool :=
  decide (0 ≤ pos.1) && decide (pos.1 < (g.grid_size : Int)) &&
  decide (0 ≤ pos.2) && decide (pos.2 < (g.grid_size : Int)) &&
  openPos g.maze pos

/-- Embedding of `QuantumAdventureGame.move_players(move)`: the entangled
candidates are computed, then each player's position is committed exactly
when its own candidate is valid. -/
def move_players (g : GameState) (move : Int × Int) : GameState :=
  let r := entangled_move g.player1_pos g.player2_pos move (g.grid_size : Int)
  let g1 := if is_valid g r.1 then { g with player1_pos := r.1 } else g
  if is_valid g1 r.2 then { g1 with player2_pos := r.2 } else g1

/-- The five candidate moves of the adversary random walk
(`random.choice([(0,1),(0,-1),(1,0),(-1,0),(0,0)])`). -/
def fiveMoves : List (Int × Int) := [(0, 1), (0, -1), (1, 0), (-1, 0), (0, 0)]

/-- One adversary step of `QuantumAdventureGame.update`: the candidate cell
`(ex + dx, ey + dy)` is taken iff it is in bounds and open, else the
adversary stays in place. -/
def enemy_step (N : Nat) (maze : List (List Bool)) (e : Int × Int)
    (mv : Int × Int) : Int × Int :=
  let nx := e.1 + mv.1
  let ny := e.2 + mv.2
  if decide (0 ≤ nx) && decide (nx < (N : Int)) &&
     decide (0 ≤ ny) && decide (ny < (N : Int)) &&
     openPos maze (nx, ny)
  then (nx, ny) else e

/-- The `for ex, ey in self.enemies` loop of `update`: each adversary gets
its own random choice, modelled by `choice i` for the `i`-th adversary. -/
def step_enemies (N : Nat) (maze : List (List Bool)) :
    List (Int × Int) → (Nat → Int × Int) → List (Int × Int)
  | [], _ => []
  | e :: rest, choice =>
    enemy_step N maze e (choice 0) ::
      step_enemies N maze rest (fun i => choice (i + 1))

/-- Embedding of `QuantumAdventureGame.update()`: the tick counter is
incremented; when it reaches the delay it is reset to zero and every
adversary takes one random-walk step, else nothing moves. -/
def update (g : GameState) (choice : Nat → Int × Int) : GameState :=
  if g.enemy_move_delay ≤ g.enemy_move_counter + 1 then
    { g with enemy_move_counter := 0,
             enemies := step_enemies g.grid_size g.maze g.enemies choice }
  else
    { g with enemy_move_counter := g.enemy_move_counter + 1 }

/-- The win condition of `check_game_over`:
`self.player1_pos == self.goal or self.player2_pos == self.goal`. -/
def winCond (g : GameState) : Bool :=
  decide (g.player1_pos = g.goal) || decide (g.player2_pos = g.goal)

/-- The loss condition of `check_game_over`:
`self.player1_pos in self.enemies or self.player2_pos in self.enemies`. -/
def loseCond (g : GameState) : Bool :=
  g.enemies.contains g.player1_pos || g.enemies.contains g.player2_pos

/-- End screens that `check_game_over` can display. -/
inductive EndScreen where
  | Won
  | Lost
  deriving Repr, DecidableEq

/-- Embedding of `QuantumAdventureGame.check_game_over()`: the first end
screen shown in the tick. The source is two sequential `if`s, but the win
branch runs first and its modal `show_end_screen` blocks (and on restart
replaces the whole state) before the loss test is reached, so the outcome
the player sees when the win test fires is always the win screen. -/
def check_game_over (g : GameState) : Option EndScreen :=
  if winCond g then some EndScreen.Won
  else if loseCond g then some EndScreen.Lost
  else none

/-- The spawn-search loop of `QuantumAdventureGame.random_empty_cell()`:
draw `x`, then `y`, each via `quantum_random_int(grid_size)` (consuming the
shared draw stream from cursor `i` with rejection fuel `qfuel`), and accept
`(x, y)` iff the cell is open and differs from both players and the goal.
Returns the accepted position and the cursor after it. -/
def random_empty_cell (N : Nat) (maze : List (List Bool))
    (p1 p2 goal : Int × Int) (draws : Nat → Nat) (qfuel : Nat) :
    Nat → Nat → Option ((Int × Int) × Nat)
  | _, 0 => none
  | i, fuel + 1 =>
    match qri_from N draws i qfuel with
    | none => none
    | some (x, i1) =>
      match qri_from N draws i1 qfuel with
      | none => none
      | some (y, i2) =>
        if cellAt maze x y &&
           !(decide (((x : Int), (y : Int)) = p1) ||
             decide (((x : Int), (y : Int)) = p2) ||
             decide (((x : Int), (y : Int)) = goal))
        then some (((x : Int), (y : Int)), i2)
        else random_empty_cell N maze p1 p2 goal draws qfuel i2 fuel

/-- Embedding of `QuantumAdventureGame.reset_game()`: goal at the grid
center, fresh maze from the row draws, players at the two corners, and three
adversaries spawned one after the other on the shared draw stream. The
`counter` and `delay` fields are not touched by `reset_game` in the source,
so they are carried in unchanged. -/
def reset_game (N counter delay : Nat) (rowDraws draws : Nat → Nat)
    (qfuel ffuel : Nat) : Option GameState :=
  let goal : Int × Int := ((N / 2 : Nat), (N / 2 : Nat))
  let maze := quantum_maze_visibility N (0, 0) (N / 2, N / 2) rowDraws
  let p1 : Int × Int := (0, 0)
  let p2 : Int × Int := ((N : Int) - 1, (N : Int) - 1)
  match random_empty_cell N maze p1 p2 goal draws qfuel 0 ffuel with
  | none => none
  | some (e1, i1) =>
    match random_empty_cell N maze p1 p2 goal draws qfuel i1 ffuel with
    | none => none
    | some (e2, i2) =>
      match random_empty_cell N maze p1 p2 goal draws qfuel i2 ffuel with
      | none => none
      | some (e3, _) =>
        some { grid_size := N, goal := goal, maze := maze,
               player1_pos := p1, player2_pos := p2,
               enemies := [e1, e2, e3],
               enemy_move_delay := delay, enemy_move_counter := counter }

/-- One player action inside an episode: a directional key (`move_players`)
or one tick of the adversary controller (`update` with its random choices). -/
inductive Act where
  | move (m : Int × Int)
  | tick (choice : Nat → Int × Int)

/-- Apply one action to the state. -/
def runAct (g : GameState) : Act → GameState
  | Act.move m => move_players g m
  | Act.tick c => update g c

/-- Run an episode: the sequence of actions applied after a reset. -/
def run (g : GameState) (acts : List Act) : GameState :=
  acts.foldl runAct g

/-! ### Helper lemmas -/

/-- Clamping is the identity on values already inside `[0, N-1]`. -/
theorem clamp_eq_self (N v : Int) (h0 : 0 ≤ v) (h1 : v ≤ N - 1) :
    max 0 (min (N - 1) v) = v := by
  rw [min_eq_right h1, max_eq_right h0]

/-! ### Claims -/

/-- C4: for every pair of positions, every move and every grid size,
`entangled_move` returns the move applied to the first position and negated
for the second, each coordinate independently clamped to `[0, N-1]`. -/
theorem C4_entangled_move_formula (x1 y1 x2 y2 dx dy N : Int) :
    entangled_move (x1, y1) (x2, y2) (dx, dy) N =
      ((max 0 (min (N - 1) (x1 + dx)), max 0 (min (N - 1) (y1 + dy))),
       (max 0 (min (N - 1) (x2 - dx)), max 0 (min (N - 1) (y2 - dy)))) := rfl

/-- C10: when no clamping occurs (all four candidate coordinates already lie
in `[0, N-1]`), `entangled_move` preserves both coordinate sums. -/
theorem C10_sum_preserved (x1 y1 x2 y2 dx dy N : Int)
    (h1 : 0 ≤ x1 + dx) (h2 : x1 + dx ≤ N - 1)
    (h3 : 0 ≤ y1 + dy) (h4 : y1 + dy ≤ N - 1)
    (h5 : 0 ≤ x2 - dx) (h6 : x2 - dx ≤ N - 1)
    (h7 : 0 ≤ y2 - dy) (h8 : y2 - dy ≤ N - 1) :
    (entangled_move (x1, y1) (x2, y2) (dx, dy) N).1.1 +
        (entangled_move (x1, y1) (x2, y2) (dx, dy) N).2.1 = x1 + x2 ∧
    (entangled_move (x1, y1) (x2, y2) (dx, dy) N).1.2 +
        (entangled_move (x1, y1) (x2, y2) (dx, dy) N).2.2 = y1 + y2 := by
  unfold entangled_move
  dsimp only
  rw [clamp_eq_self N _ h1 h2, clamp_eq_self N _ h3 h4,
      clamp_eq_self N _ h5 h6, clamp_eq_self N _ h7 h8]
  omega

/-- C10 witness at a concrete input. -/
theorem C10_sum_preserved_witness :
    (0 ≤ (1 : Int) + 1 ∧ (1 : Int) + 1 ≤ 4 - 1 ∧
     0 ≤ (1 : Int) + 0 ∧ (1 : Int) + 0 ≤ 4 - 1 ∧
     0 ≤ (2 : Int) - 1 ∧ (2 : Int) - 1 ≤ 4 - 1 ∧
     0 ≤ (2 : Int) - 0 ∧ (2 : Int) - 0 ≤ 4 - 1) ∧
    ((entangled_move (1, 1) (2, 2) (1, 0) 4).1.1 +
        (entangled_move (1, 1) (2, 2) (1, 0) 4).2.1 = 1 + 2 ∧
     (entangled_move (1, 1) (2, 2) (1, 0) 4).1.2 +
        (entangled_move (1, 1) (2, 2) (1, 0) 4).2.2 = 1 + 2) :=
  ⟨by decide,
   C10_sum_preserved 1 1 2 2 1 0 4 (by decide) (by decide) (by decide)
     (by decide) (by decide) (by decide) (by decide) (by decide)⟩

/-- C1: when the win condition and the loss condition hold in the same tick,
`check_game_over` yields the win screen, never the loss screen. -/
theorem C1_win_precedence (g : GameState) (hw : winCond g = true)
    (hl : loseCond g = true) :
    check_game_over g = some EndScreen.Won ∧
      check_game_over g ≠ some EndScreen.Lost := by
  unfold check_game_over
  rw [hw]
  exact ⟨rfl, by simp⟩

/-- Concrete state in which player 1 stands on the goal and on an adversary
at once. -/
def bothCondState : GameState :=
  { grid_size := 3, goal := (1, 1),
    maze := [[true, true, true], [true, true, true], [true, true, true]],
    player1_pos := (1, 1), player2_pos := (2, 2), enemies := [(1, 1)],
    enemy_move_delay := 5, enemy_move_counter := 0 }

/-- C1 witness at a concrete state where both conditions hold. -/
theorem C1_win_precedence_witness :
    (winCond bothCondState = true ∧ loseCond bothCondState = true) ∧
    (check_game_over bothCondState = some EndScreen.Won ∧
      check_game_over bothCondState ≠ some EndScreen.Lost) :=
  ⟨⟨by decide, by decide⟩,
   C1_win_precedence bothCondState (by decide) (by decide)⟩

/-- C5: a directional move commits each agent's candidate exactly when that
candidate is in bounds and open, and the two commits are independent: each
player's new position is determined by its own validity test alone. -/
theorem C5_independent_commits (g : GameState) (move : Int × Int) :
    (move_players g move).player1_pos =
      (if is_valid g
            (entangled_move g.player1_pos g.player2_pos move
              (g.grid_size : Int)).1
       then (entangled_move g.player1_pos g.player2_pos move
              (g.grid_size : Int)).1
       else g.player1_pos) ∧
    (move_players g move).player2_pos =
      (if is_valid g
            (entangled_move g.player1_pos g.player2_pos move
              (g.grid_size : Int)).2
       then (entangled_move g.player1_pos g.player2_pos move
              (g.grid_size : Int)).2
       else g.player2_pos) := by
  have hv : ∀ p q : Int × Int,
      is_valid { g with player1_pos := p } q = is_valid g q := fun _ _ => rfl
  unfold move_players
  dsimp only
  by_cases h1 : is_valid g (entangled_move g.player1_pos g.player2_pos move
      (g.grid_size : Int)).1 = true <;>
  by_cases h2 : is_valid g (entangled_move g.player1_pos g.player2_pos move
      (g.grid_size : Int)).2 = true <;>
  simp [hv, h1, h2]

/-- Characterisation of the rejection loop: a returned value is in range, is
some raw draw reduced to `bit_length(max_value)` bits, and every raw draw
strictly before it was rejected for being out of range. -/
theorem qri_from_spec (max_value : Nat) (draws : Nat → Nat) :
    ∀ fuel i v j, qri_from max_value draws i fuel = some (v, j) →
      v < max_value ∧ ∃ k, i ≤ k ∧ v = draws k % 2 ^ bit_length max_value ∧
        ∀ m, i ≤ m → m < k → max_value ≤ draws m % 2 ^ bit_length max_value := by
  intro fuel
  induction fuel with
  | zero => intro i v j h; simp [qri_from] at h
  | succ fuel ih =>
    intro i v j h
    unfold qri_from at h
    dsimp only at h
    by_cases hlt : draws i % 2 ^ bit_length max_value < max_value
    · rw [if_pos hlt] at h
      have h' := Option.some.inj h
      have hv' : draws i % 2 ^ bit_length max_value = v := congrArg Prod.fst h'
      subst hv'
      exact ⟨hlt, i, le_refl i, rfl, fun m h1 h2 => by omega⟩
    · rw [if_neg hlt] at h
      obtain ⟨hv, k, hik, hvk, hrej⟩ := ih (i + 1) v j h
      refine ⟨hv, k, by omega, hvk, ?_⟩
      intro m him hmk
      by_cases hm : m = i
      · subst hm; omega
      · exact hrej m (by omega) hmk

/-- C6: for `max_value > 0`, every value the single-draw sampler returns lies
in `[0, max_value)`; moreover it is a raw draw of bit-width
`max_value.bit_length()` and all raw draws before it were rejected as out of
range. -/
theorem C6_single_draw_range (max_value fuel v : Nat) (draws : Nat → Nat)
    (hpos : 0 < max_value)
    (hv : quantum_random_int max_value draws fuel = some v) :
    v < max_value ∧ ∃ k, v = draws k % 2 ^ bit_length max_value ∧
      ∀ m < k, max_value ≤ draws m % 2 ^ bit_length max_value := by
  unfold quantum_random_int at hv
  rcases Option.map_eq_some'.mp hv with ⟨⟨w, j⟩, hw, hwv⟩
  obtain ⟨hlt, k, _, hvk, hrej⟩ := qri_from_spec max_value draws fuel 0 w j hw
  cases hwv
  exact ⟨hlt, k, hvk, fun m hm => hrej m (Nat.zero_le m) hm⟩

/-- Concrete draw stream whose first raw draw is rejected. -/
def rejectThenOne : Nat → Nat := fun i => if i = 0 then 3 else 1

/-- C6 witness: with `max_value = 3`, the stream rejects the first draw (3)
and returns the second (1). -/
theorem C6_single_draw_range_witness :
    (0 < 3 ∧ quantum_random_int 3 rejectThenOne 2 = some 1) ∧
    (1 < 3 ∧ ∃ k, 1 = rejectThenOne k % 2 ^ bit_length 3 ∧
      ∀ m < k, 3 ≤ rejectThenOne m % 2 ^ bit_length 3) :=
  ⟨⟨by decide, by decide⟩,
   C6_single_draw_range 3 2 1 rejectThenOne (by decide) (by decide)⟩

/-- C7: for `max_value > 0` and any batch of raw outcomes of the requested
size, the batch sampler returns at most `batch_size` values, each in
`[0, max_value)`. -/
theorem C7_batch_range (max_value batch_size : Nat) (outcomes : List Nat)
    (hpos : 0 < max_value) (hlen : outcomes.length = batch_size) :
    (quantum_random_int_batch max_value batch_size outcomes).length ≤
        batch_size ∧
    ∀ v ∈ quantum_random_int_batch max_value batch_size outcomes,
      v < max_value := by
  constructor
  · unfold quantum_random_int_batch
    exact (List.length_take _ _).le.trans (min_le_left _ _)
  · intro v hvmem
    unfold quantum_random_int_batch at hvmem
    have hf := List.mem_of_mem_take hvmem
    exact of_decide_eq_true (List.mem_filter.mp hf).2

/-- C7 witness: `max_value = 3`, five raw outcomes, one of which (3) is out
of range and discarded. -/
theorem C7_batch_range_witness :
    (0 < 3 ∧ ([0, 1, 2, 3, 0] : List Nat).length = 5) ∧
    ((quantum_random_int_batch 3 5 [0, 1, 2, 3, 0]).length ≤ 5 ∧
     ∀ v ∈ quantum_random_int_batch 3 5 [0, 1, 2, 3, 0], v < 3) :=
  ⟨⟨by decide, by decide⟩,
   C7_batch_range 3 5 [0, 1, 2, 3, 0] (by decide) (by decide)⟩

/-- A maze row has one cell per column. -/
theorem length_mazeRow (size draw : Nat) : (mazeRow size draw).length = size := by
  simp [mazeRow]

/-- Writing one cell does not change the number of rows. -/
theorem length_setCell (grid : List (List Bool)) (x y : Nat) (b : Bool) :
    (setCell grid x y b).length = grid.length := by
  simp [setCell]

/-- Reading back the row a cell write went into. -/
theorem getD_setCell_self (grid : List (List Bool)) (x y : Nat) (b : Bool)
    (hy : y < grid.length) :
    (setCell grid x y b).getD y [] = (grid.getD y []).set x b := by
  simp [setCell, List.getD_eq_getElem?_getD, List.getElem?_set_self, hy]

/-- Rows other than the written one are untouched. -/
theorem getD_setCell_ne_row (grid : List (List Bool)) (x y y' : Nat) (b : Bool)
    (h : y ≠ y') :
    (setCell grid x y b).getD y' [] = grid.getD y' [] := by
  simp [setCell, List.getD_eq_getElem?_getD, List.getElem?_set_ne, h]

/-- Reading back the written cell. -/
theorem cellAt_setCell_self (grid : List (List Bool)) (x y : Nat) (b : Bool)
    (hy : y < grid.length) (hx : x < (grid.getD y []).length) :
    cellAt (setCell grid x y b) x y = b := by
  unfold cellAt
  rw [getD_setCell_self grid x y b hy]
  simp only [List.getD_eq_getElem?_getD] at hx
  simp [List.getD_eq_getElem?_getD, List.getElem?_set_self, hx]

/-- Cells other than the written one are untouched. -/
theorem cellAt_setCell_ne (grid : List (List Bool)) (x y x' y' : Nat) (b : Bool)
    (hy : y < grid.length) (hne : x ≠ x' ∨ y ≠ y') :
    cellAt (setCell grid x y b) x' y' = cellAt grid x' y' := by
  by_cases hyy : y = y'
  · subst hyy
    have hx : x ≠ x' := hne.resolve_right (fun h => h rfl)
    unfold cellAt
    rw [getD_setCell_self grid x y b hy]
    simp [List.getD_eq_getElem?_getD, List.getElem?_set_ne, hx]
  · unfold cellAt
    rw [getD_setCell_ne_row grid x y y' b hyy]

/-- A row of the freshly drawn (pre-forcing) grid. -/
theorem baseGrid_getD (size : Nat) (rowDraws : Nat → Nat) (y : Nat)
    (hy : y < size) :
    ((List.range size).map (fun z => mazeRow size (rowDraws z))).getD y [] =
      mazeRow size (rowDraws y) := by
  simp [List.getD_eq_getElem?_getD, List.getElem?_map, List.getElem?_range, hy]

/-- After maze generation the start and goal cells are open, whatever the
row draws were. -/
theorem maze_start_goal_open (size sx sy gx gy : Nat) (rowDraws : Nat → Nat)
    (hsx : sx < size) (hsy : sy < size) (hgx : gx < size) (hgy : gy < size) :
    cellAt (quantum_maze_visibility size (sx, sy) (gx, gy) rowDraws) sx sy
        = true ∧
    cellAt (quantum_maze_visibility size (sx, sy) (gx, gy) rowDraws) gx gy
        = true := by
  unfold quantum_maze_visibility
  dsimp only
  set grid := (List.range size).map
    (fun z => mazeRow size (rowDraws z)) with hgrid
  have hlen : grid.length = size := by rw [hgrid]; simp
  have hrowlen : ∀ y, y < size → (grid.getD y []).length = size := by
    intro y hy
    rw [hgrid, baseGrid_getD size rowDraws y hy, length_mazeRow]
  have hlen1 : (setCell grid sx sy true).length = size := by
    rw [length_setCell, hlen]
  have hrowlen1 : ∀ y, y < size →
      ((setCell grid sx sy true).getD y []).length = size := by
    intro y hy
    by_cases h : sy = y
    · subst h
      rw [getD_setCell_self grid sx sy true (hlen ▸ hsy)]
      rw [List.length_set]
      exact hrowlen sy hsy
    · rw [getD_setCell_ne_row grid sx sy y true h]
      exact hrowlen y hy
  constructor
  · by_cases hsame : gx = sx ∧ gy = sy
    · obtain ⟨h1, h2⟩ := hsame
      subst h1; subst h2
      exact cellAt_setCell_self _ gx gy true (hlen1 ▸ hgy)
        (by rw [hrowlen1 gy hgy]; exact hgx)
    · have hne : gx ≠ sx ∨ gy ≠ sy := by
        by_cases h1 : gx = sx
        · exact Or.inr (fun h2 => hsame ⟨h1, h2⟩)
        · exact Or.inl h1
      rw [cellAt_setCell_ne (setCell grid sx sy true) gx gy sx sy true
        (hlen1 ▸ hgy) hne]
      exact cellAt_setCell_self grid sx sy true (hlen ▸ hsy)
        (by rw [hrowlen sy hsy]; exact hsx)
  · exact cellAt_setCell_self _ gx gy true (hlen1 ▸ hgy)
      (by rw [hrowlen1 gy hgy]; exact hgx)

/-- C3: the generated maze always has the start and goal cells open, for
every possible sequence of entropy draws. -/
theorem C3_forced_open (size sx sy gx gy : Nat) (rowDraws : Nat → Nat)
    (hsx : sx < size) (hsy : sy < size) (hgx : gx < size) (hgy : gy < size) :
    cellAt (quantum_maze_visibility size (sx, sy) (gx, gy) rowDraws) sx sy
        = true ∧
    cellAt (quantum_maze_visibility size (sx, sy) (gx, gy) rowDraws) gx gy
        = true :=
  maze_start_goal_open size sx sy gx gy rowDraws hsx hsy hgx hgy

/-- C3 witness: size 2, start `(0,0)`, goal `(1,1)`, all row draws zero. -/
theorem C3_forced_open_witness :
    ((0 : Nat) < 2 ∧ (0 : Nat) < 2 ∧ (1 : Nat) < 2 ∧ (1 : Nat) < 2) ∧
    (cellAt (quantum_maze_visibility 2 (0, 0) (1, 1) (fun _ => 0)) 0 0
        = true ∧
     cellAt (quantum_maze_visibility 2 (0, 0) (1, 1) (fun _ => 0)) 1 1
        = true) :=
  ⟨⟨by decide, by decide, by decide, by decide⟩,
   C3_forced_open 2 0 0 1 1 (fun _ => 0) (by decide) (by decide) (by decide)
     (by decide)⟩

/-- Openness of a position with natural coordinates is the plain cell read. -/
theorem openPos_natPair (maze : List (List Bool)) (x y : Nat) :
    openPos maze ((x : Int), (y : Int)) = cellAt maze x y := by
  simp [openPos]

/-- Characterisation of the spawn search: an accepted cell has natural
coordinates inside the grid, is open, and differs from both players and the
goal. Nothing excludes previously spawned adversaries. -/
theorem random_empty_cell_spec (N : Nat) (maze : List (List Bool))
    (p1 p2 goal : Int × Int) (draws : Nat → Nat) (qfuel : Nat) :
    ∀ fuel i e j,
      random_empty_cell N maze p1 p2 goal draws qfuel i fuel = some (e, j) →
      (∃ x y : Nat, e = ((x : Int), (y : Int)) ∧ x < N ∧ y < N ∧
          cellAt maze x y = true) ∧
        e ≠ p1 ∧ e ≠ p2 ∧ e ≠ goal := by
  intro fuel
  induction fuel with
  | zero => intro i e j h; simp [random_empty_cell] at h
  | succ fuel ih =>
    intro i e j h
    unfold random_empty_cell at h
    cases hx : qri_from N draws i qfuel with
    | none => rw [hx] at h; exact Option.noConfusion h
    | some p =>
      obtain ⟨x, i1⟩ := p
      rw [hx] at h
      dsimp only at h
      cases hy : qri_from N draws i1 qfuel with
      | none => rw [hy] at h; exact Option.noConfusion h
      | some q =>
        obtain ⟨y, i2⟩ := q
        rw [hy] at h
        dsimp only at h
        split at h
        · next hc =>
            have he := Option.some.inj h
            have he1 : ((x : Int), (y : Int)) = e := congrArg Prod.fst he
            simp only [Bool.and_eq_true] at hc
            obtain ⟨hopen, hne⟩ := hc
            simp only [Bool.not_eq_true', Bool.or_eq_false_iff,
              decide_eq_false_iff_not] at hne
            obtain ⟨⟨hne1, hne2⟩, hne3⟩ := hne
            have hxN : x < N := (qri_from_spec N draws qfuel i x i1 hx).1
            have hyN : y < N := (qri_from_spec N draws qfuel i1 y i2 hy).1
            subst he1
            exact ⟨⟨x, y, rfl, hxN, hyN, hopen⟩, hne1, hne2, hne3⟩
        · exact ih i2 e j h

/-- C2 (amended): after every successful reset, the maze has the start and
goal cells open, the players stand at the two corners, and exactly three
adversaries sit on open cells, none of them on a player or on the goal (but
they need not be pairwise distinct). -/
theorem C2_reset_amended (N counter delay qfuel ffuel : Nat)
    (rowDraws draws : Nat → Nat) (g : GameState) (hN : 0 < N)
    (h : reset_game N counter delay rowDraws draws qfuel ffuel = some g) :
    cellAt g.maze 0 0 = true ∧ cellAt g.maze (N / 2) (N / 2) = true ∧
    g.player1_pos = (0, 0) ∧
    g.player2_pos = ((N : Int) - 1, (N : Int) - 1) ∧
    g.enemies.length = 3 ∧
    ∀ e ∈ g.enemies, openPos g.maze e = true ∧
      e ≠ g.player1_pos ∧ e ≠ g.player2_pos ∧ e ≠ g.goal := by
  have hN2 : N / 2 < N := Nat.div_lt_self hN one_lt_two
  unfold reset_game at h
  dsimp only at h
  split at h
  · exact Option.noConfusion h
  · next e1 i1 h1 =>
    split at h
    · exact Option.noConfusion h
    · next e2 i2 h2 =>
      split at h
      · exact Option.noConfusion h
      · next e3 i3 h3 =>
        have hg := Option.some.inj h
        subst hg
        have hs1 := random_empty_cell_spec N _ _ _ _ draws qfuel ffuel 0 e1 i1 h1
        have hs2 := random_empty_cell_spec N _ _ _ _ draws qfuel ffuel i1 e2 i2 h2
        have hs3 := random_empty_cell_spec N _ _ _ _ draws qfuel ffuel i2 e3 i3 h3
        have hmz := maze_start_goal_open N 0 0 (N / 2) (N / 2) rowDraws hN hN hN2 hN2
        refine ⟨hmz.1, hmz.2, rfl, rfl, rfl, ?_⟩
        intro e he
        simp only [List.mem_cons, List.not_mem_nil, or_false] at he
        rcases he with rfl | rfl | rfl
        · obtain ⟨⟨x, y, rfl, _, _, hcell⟩, h1', h2', h3'⟩ := hs1
          exact ⟨(openPos_natPair _ x y).trans hcell, h1', h2', h3'⟩
        · obtain ⟨⟨x, y, rfl, _, _, hcell⟩, h1', h2', h3'⟩ := hs2
          exact ⟨(openPos_natPair _ x y).trans hcell, h1', h2', h3'⟩
        · obtain ⟨⟨x, y, rfl, _, _, hcell⟩, h1', h2', h3'⟩ := hs3
          exact ⟨(openPos_natPair _ x y).trans hcell, h1', h2', h3'⟩

/-- The state produced by a reset on a 4×4 board whose row draws are all 15
(every cell open) and whose position draws are constantly 1: all three
adversaries land on the same cell (1, 1). -/
def allOpenReset : GameState :=
  { grid_size := 4, goal := (2, 2),
    maze := [[true, true, true, true], [true, true, true, true],
             [true, true, true, true], [true, true, true, true]],
    player1_pos := (0, 0), player2_pos := (3, 3),
    enemies := [(1, 1), (1, 1), (1, 1)],
    enemy_move_delay := 5, enemy_move_counter := 0 }

/-- C2 counterexample: the spawn search never excludes already-placed
adversaries, so a reset can put all three adversaries on one cell — the
adversary cells are not pairwise distinct as the claim states. -/
theorem C2_distinct_counterexample :
    (reset_game 4 0 5 (fun _ => 15) (fun _ => 1) 1 1).map GameState.enemies =
        some [(1, 1), (1, 1), (1, 1)] ∧
    ¬ List.Pairwise (fun a b => a ≠ b)
        [((1 : Int), (1 : Int)), ((1 : Int), (1 : Int)),
         ((1 : Int), (1 : Int))] := by
  constructor
  · decide
  · decide

/-- C2 witness: the amended statement applied to the concrete reset above. -/
theorem C2_reset_amended_witness :
    (0 < 4 ∧
      reset_game 4 0 5 (fun _ => 15) (fun _ => 1) 1 1 = some allOpenReset) ∧
    (cellAt allOpenReset.maze 0 0 = true ∧
     cellAt allOpenReset.maze (4 / 2) (4 / 2) = true ∧
     allOpenReset.player1_pos = (0, 0) ∧
     allOpenReset.player2_pos = ((4 : Int) - 1, (4 : Int) - 1) ∧
     allOpenReset.enemies.length = 3 ∧
     ∀ e ∈ allOpenReset.enemies, openPos allOpenReset.maze e = true ∧
       e ≠ allOpenReset.player1_pos ∧ e ≠ allOpenReset.player2_pos ∧
       e ≠ allOpenReset.goal) :=
  ⟨⟨by decide, by decide⟩,
   C2_reset_amended 4 0 5 1 1 (fun _ => 15) (fun _ => 1) allOpenReset
     (by decide) (by decide)⟩

/-- Row draws making only cell (1, 0) open beyond the forced start and goal. -/
def c9Rows : Nat → Nat := fun y => if y = 0 then 2 else 0

/-- Position draws sending every adversary to (1, 0): x-draws read 1,
y-draws read 0. -/
def c9Draws : Nat → Nat := fun i => if i % 2 = 0 then 1 else 0

/-- C9: maze generation forces open only the start and the goal, while reset
puts player 2 at (N-1, N-1) unconditionally, so there are entropy outcomes
where the reset succeeds and player 2 begins the episode on a closed cell. -/
theorem C9_player2_closed_spawn :
    (reset_game 4 0 5 c9Rows c9Draws 2 4).map
        (fun g => (g.player2_pos, openPos g.maze g.player2_pos)) =
      some ((3, 3), false) := by decide

/-- A directional move changes only the player positions. -/
theorem move_players_fields (g : GameState) (m : Int × Int) :
    (move_players g m).maze = g.maze ∧
    (move_players g m).enemies = g.enemies ∧
    (move_players g m).grid_size = g.grid_size := by
  unfold move_players
  dsimp only
  split <;> split <;> exact ⟨rfl, rfl, rfl⟩

/-- A tick never changes the maze or the grid size. -/
theorem update_fields (g : GameState) (c : Nat → Int × Int) :
    (update g c).maze = g.maze ∧ (update g c).grid_size = g.grid_size := by
  unfold update
  split <;> exact ⟨rfl, rfl⟩

/-- An adversary step either stays put or moves to its in-bounds open
candidate cell. -/
theorem enemy_step_cases (N : Nat) (maze : List (List Bool)) (e mv : Int × Int) :
    enemy_step N maze e mv = e ∨
      (enemy_step N maze e mv = (e.1 + mv.1, e.2 + mv.2) ∧
       0 ≤ e.1 + mv.1 ∧ e.1 + mv.1 < (N : Int) ∧
       0 ≤ e.2 + mv.2 ∧ e.2 + mv.2 < (N : Int) ∧
       openPos maze (e.1 + mv.1, e.2 + mv.2) = true) := by
  unfold enemy_step
  dsimp only
  split
  · next hc =>
      simp only [Bool.and_eq_true, decide_eq_true_eq] at hc
      obtain ⟨⟨⟨⟨h1, h2⟩, h3⟩, h4⟩, h5⟩ := hc
      exact Or.inr ⟨rfl, h1, h2, h3, h4, h5⟩
  · exact Or.inl rfl

/-- Every entry of the stepped adversary list is some old adversary after
one `enemy_step` with its own choice. -/
theorem mem_step_enemies (N : Nat) (maze : List (List Bool)) :
    ∀ (es : List (Int × Int)) (choice : Nat → Int × Int) (e' : Int × Int),
      e' ∈ step_enemies N maze es choice →
      ∃ e ∈ es, ∃ k, e' = enemy_step N maze e (choice k) := by
  intro es
  induction es with
  | nil => intro choice e' h; simp [step_enemies] at h
  | cons a rest ih =>
    intro choice e' h
    rcases List.mem_cons.mp h with h1 | h1
    · exact ⟨a, List.mem_cons_self a rest, 0, h1⟩
    · obtain ⟨e, hmem, k, hk⟩ := ih (fun i => choice (i + 1)) e' h1
      exact ⟨e, List.mem_cons_of_mem a hmem, k + 1, hk⟩

/-- One engine action keeps every adversary on an open cell, and leaves the
maze and grid size alone. -/
theorem runAct_preserves_open (g : GameState) (a : Act)
    (hinv : ∀ e ∈ g.enemies, openPos g.maze e = true) :
    (∀ e ∈ (runAct g a).enemies, openPos (runAct g a).maze e = true) ∧
    (runAct g a).maze = g.maze ∧ (runAct g a).grid_size = g.grid_size := by
  cases a with
  | move m =>
    obtain ⟨h1, h2, h3⟩ := move_players_fields g m
    refine ⟨?_, h1, h3⟩
    intro e he
    rw [show (runAct g (Act.move m)).maze = g.maze from h1]
    exact hinv e (h2 ▸ he)
  | tick c =>
    obtain ⟨h1, h2⟩ := update_fields g c
    refine ⟨?_, h1, h2⟩
    intro e he
    rw [show (runAct g (Act.tick c)).maze = g.maze from h1]
    have he' : e ∈ (update g c).enemies := he
    unfold update at he'
    by_cases hd : g.enemy_move_delay ≤ g.enemy_move_counter + 1
    · rw [if_pos hd] at he'
      dsimp only at he'
      obtain ⟨e0, hmem, k, hk⟩ :=
        mem_step_enemies g.grid_size g.maze g.enemies c e he'
      rcases enemy_step_cases g.grid_size g.maze e0 (c k) with hs | hs
      · rw [hk, hs]; exact hinv e0 hmem
      · rw [hk, hs.1]; exact hs.2.2.2.2.2
    · rw [if_neg hd] at he'
      dsimp only at he'
      exact hinv e he'

/-- Along any episode the adversaries stay on open cells, and the maze and
grid size never change. -/
theorem run_invariant (acts : List Act) :
    ∀ g : GameState, (∀ e ∈ g.enemies, openPos g.maze e = true) →
    (∀ e ∈ (run g acts).enemies, openPos (run g acts).maze e = true) ∧
    (run g acts).maze = g.maze ∧ (run g acts).grid_size = g.grid_size := by
  induction acts with
  | nil => intro g hinv; exact ⟨hinv, rfl, rfl⟩
  | cons a rest ih =>
    intro g hinv
    have h1 := runAct_preserves_open g a hinv
    have h2 := ih (runAct g a) h1.1
    exact ⟨h2.1, h2.2.1.trans h1.2.1, h2.2.2.trans h1.2.2⟩

/-- A successful reset puts every adversary on an open cell. -/
theorem reset_enemies_open (N counter delay qfuel ffuel : Nat)
    (rowDraws draws : Nat → Nat) (g : GameState)
    (h : reset_game N counter delay rowDraws draws qfuel ffuel = some g) :
    ∀ e ∈ g.enemies, openPos g.maze e = true := by
  unfold reset_game at h
  dsimp only at h
  split at h
  · exact Option.noConfusion h
  · next e1 i1 h1 =>
    split at h
    · exact Option.noConfusion h
    · next e2 i2 h2 =>
      split at h
      · exact Option.noConfusion h
      · next e3 i3 h3 =>
        have hg := Option.some.inj h
        subst hg
        intro e he
        simp only [List.mem_cons, List.not_mem_nil, or_false] at he
        rcases he with rfl | rfl | rfl
        · obtain ⟨⟨x, y, rfl, _, _, hcell⟩, _⟩ :=
            random_empty_cell_spec N _ _ _ _ draws qfuel ffuel 0 _ i1 h1
          exact (openPos_natPair _ x y).trans hcell
        · obtain ⟨⟨x, y, rfl, _, _, hcell⟩, _⟩ :=
            random_empty_cell_spec N _ _ _ _ draws qfuel ffuel i1 _ i2 h2
          exact (openPos_natPair _ x y).trans hcell
        · obtain ⟨⟨x, y, rfl, _, _, hcell⟩, _⟩ :=
            random_empty_cell_spec N _ _ _ _ draws qfuel ffuel i2 _ i3 h3
          exact (openPos_natPair _ x y).trans hcell

/-- The stepped adversary list has one entry per old adversary. -/
theorem length_step_enemies (N : Nat) (maze : List (List Bool)) :
    ∀ (es : List (Int × Int)) (choice : Nat → Int × Int),
      (step_enemies N maze es choice).length = es.length := by
  intro es
  induction es with
  | nil => intro choice; rfl
  | cons a rest ih =>
    intro choice
    simp only [step_enemies, List.length_cons]
    rw [ih (fun i => choice (i + 1))]

/-- Positional reading of the adversary loop: the `i`-th new adversary is
exactly the `i`-th old adversary after one `enemy_step` with its own
choice. -/
theorem getD_step_enemies (N : Nat) (maze : List (List Bool)) :
    ∀ (es : List (Int × Int)) (choice : Nat → Int × Int) (i : Nat),
      i < es.length →
      (step_enemies N maze es choice).getD i (0, 0) =
        enemy_step N maze (es.getD i (0, 0)) (choice i) := by
  intro es
  induction es with
  | nil => intro choice i hi; exact absurd hi (Nat.not_lt_zero i)
  | cons a rest ih =>
    intro choice i hi
    cases i with
    | zero => rfl
    | succ n =>
      exact ih (fun j => choice (j + 1)) n (Nat.lt_of_succ_lt_succ hi)

/-- Relation the claim states between one adversary's old and new position:
the adversary stayed, or moved to a cell one step away that is in bounds
and open. -/
def adjacentStep (N : Nat) (maze : List (List Bool)) (e e' : Int × Int) :
    Prop :=
  e' = e ∨
    ((e'.1 - e.1).natAbs + (e'.2 - e.2).natAbs = 1 ∧
     0 ≤ e'.1 ∧ e'.1 < (N : Int) ∧ 0 ≤ e'.2 ∧ e'.2 < (N : Int) ∧
     openPos maze e' = true)

/-- C8: in every state reachable from a successful reset the adversaries
all stand on open cells, and one further adversary advance relates each
adversary's new position to that same adversary's previous position: it is
unchanged, or an adjacent in-bounds open cell. -/
theorem C8_adversary_random_walk (N counter delay qfuel ffuel : Nat)
    (rowDraws draws : Nat → Nat) (g0 : GameState)
    (h0 : reset_game N counter delay rowDraws draws qfuel ffuel = some g0)
    (acts : List Act) :
    (∀ e ∈ (run g0 acts).enemies, openPos (run g0 acts).maze e = true) ∧
    (∀ choice : Nat → Int × Int, (∀ i, choice i ∈ fiveMoves) →
      (update (run g0 acts) choice).enemies.length =
          (run g0 acts).enemies.length ∧
      ∀ i < (run g0 acts).enemies.length,
        adjacentStep (run g0 acts).grid_size (run g0 acts).maze
          ((run g0 acts).enemies.getD i (0, 0))
          ((update (run g0 acts) choice).enemies.getD i (0, 0))) := by
  have hinv0 :=
    reset_enemies_open N counter delay qfuel ffuel rowDraws draws g0 h0
  have hr := run_invariant acts g0 hinv0
  refine ⟨hr.1, ?_⟩
  intro choice hch
  by_cases hd :
      (run g0 acts).enemy_move_delay ≤ (run g0 acts).enemy_move_counter + 1
  · have henem : (update (run g0 acts) choice).enemies =
        step_enemies (run g0 acts).grid_size (run g0 acts).maze
          (run g0 acts).enemies choice := by
      unfold update; rw [if_pos hd]
    rw [henem]
    refine ⟨length_step_enemies _ _ _ _, ?_⟩
    intro i hi
    rw [getD_step_enemies _ _ _ choice i hi]
    set e := (run g0 acts).enemies.getD i (0, 0) with he
    rcases enemy_step_cases (run g0 acts).grid_size (run g0 acts).maze e
        (choice i) with hs | hs
    · exact Or.inl hs
    · obtain ⟨heq, hb1, hb2, hb3, hb4, hop⟩ := hs
      rw [heq]
      have hmv := hch i
      simp only [fiveMoves, List.mem_cons, List.not_mem_nil, or_false] at hmv
      unfold adjacentStep
      rcases hmv with hmv | hmv | hmv | hmv | hmv <;>
        rw [hmv] at hb1 hb2 hb3 hb4 hop ⊢
      · exact Or.inr ⟨by dsimp only; omega, hb1, hb2, hb3, hb4, hop⟩
      · exact Or.inr ⟨by dsimp only; omega, hb1, hb2, hb3, hb4, hop⟩
      · exact Or.inr ⟨by dsimp only; omega, hb1, hb2, hb3, hb4, hop⟩
      · exact Or.inr ⟨by dsimp only; omega, hb1, hb2, hb3, hb4, hop⟩
      · exact Or.inl (by dsimp only; simp)
  · have henem : (update (run g0 acts) choice).enemies =
        (run g0 acts).enemies := by
      unfold update; rw [if_neg hd]
    rw [henem]
    exact ⟨rfl, fun i hi => Or.inl rfl⟩

/-- C8 witness: the freshly reset all-open 4×4 board with the empty episode. -/
theorem C8_adversary_random_walk_witness :
    (reset_game 4 0 5 (fun _ => 15) (fun _ => 1) 1 1 = some allOpenReset) ∧
    ((∀ e ∈ (run allOpenReset []).enemies,
        openPos (run allOpenReset []).maze e = true) ∧
     (∀ choice : Nat → Int × Int, (∀ i, choice i ∈ fiveMoves) →
       (update (run allOpenReset []) choice).enemies.length =
           (run allOpenReset []).enemies.length ∧
       ∀ i < (run allOpenReset []).enemies.length,
         adjacentStep (run allOpenReset []).grid_size
           (run allOpenReset []).maze
           ((run allOpenReset []).enemies.getD i (0, 0))
           ((update (run allOpenReset []) choice).enemies.getD i (0, 0)))) :=
  ⟨by decide,
   C8_adversary_random_walk 4 0 5 1 1 (fun _ => 15) (fun _ => 1) allOpenReset
     (by decide) []⟩

end QuantumAdventure
